import Mathlib

/-!
# Verification of `typed-env` (typed, cached environment variables)

Shallow embedding of the crate's core (`src/core.rs`, `src/error.rs`,
`src/error_reason.rs`, `src/list_envar.rs`) into Lean 4, together with
theorems settling the frozen claims about the caching state machine, the
parse rules, the list adapter and the lazy diagnostic.

Modelling conventions:
* Rust `&str`/`String` values are Lean `String`s; `str::trim`,
  `str::split` and `eq_ignore_ascii_case` are re-implemented structurally
  over the character list so that they evaluate by `rfl`/`decide`.
* `Result<T, EnvarError>` is `Except EnvarError T`.
* `std::env::var(name)` is passed to `Envar.value` explicitly as an
  `Option String` (the raw value of the one variable the instance reads).
* `Mutex`/`OnceLock` cells become plain state threaded through `value`,
  which returns the updated `Envar` (sequential projection of the code);
  the concurrent OnStartup path gets its own interleaving model further
  down, and `ErrorReason` is modelled as its own explicit state machine.
* `Envar.value` additionally returns a `Nat`: the number of times the
  variable's parse rule was invoked during that call (observability
  instrumentation used by the cache-hit claims; the code invokes the rule
  at most once per call).
-/

/-! ## String primitives (models of the Rust std functions used) -/

/-- Model of Rust `str::trim`: drop whitespace from both ends. -/
def rustTrim (s : String) : String :=
  ⟨((s.data.dropWhile Char.isWhitespace).reverse.dropWhile Char.isWhitespace).reverse⟩

/-- Model of Rust `str::is_empty`. -/
def rustIsEmpty (s : String) : Bool :=
  s.data.isEmpty

/-- Model of Rust `eq_ignore_ascii_case`: ASCII case-insensitive equality. -/
def eqIgnoreAsciiCase (a b : String) : Bool :=
  a.data.map Char.toLower == b.data.map Char.toLower

/-- Worker for `rustSplit` with a non-empty separator: scan left to right,
prepending scanned characters to the accumulator and emitting the segment
(reversed back into scan order) at each leftmost separator match.  `fuel`
bounds the recursion (each step consumes at least one character when it
recurses, so `length + 1` fuel is enough). -/
def splitWorker (sep : List Char) (fuel : Nat) (acc : List Char) (cs : List Char) :
    List (List Char) :=
  match fuel, cs with
  | 0, _ => [acc.reverse]
  | _ + 1, [] => [acc.reverse]
  | fuel + 1, c :: rest =>
    if sep.isPrefixOf (c :: rest) then
      acc.reverse :: splitWorker sep fuel [] ((c :: rest).drop sep.length)
    else
      splitWorker sep fuel (c :: acc) rest

/-- Model of Rust `str::split` with a literal separator.  An empty pattern
matches at every character boundary (begin and end included), yielding an
empty first and last segment with the single characters in between, as in
`"rust".split("") == ["", "r", "u", "s", "t", ""]`. -/
def rustSplit (sep : String) (s : String) : List String :=
  if sep.data.isEmpty then
    "" :: (s.data.map (fun c => (⟨[c]⟩ : String)) ++ [""])
  else
    (splitWorker sep.data (s.data.length + 1) [] s.data).map (fun cs => ⟨cs⟩)

/-! ## Lazy diagnostic (`src/error_reason.rs`)

`ErrorReason` holds `Mutex<Option<Box<FnOnce() -> String>>>` plus a
`OnceLock<String>` memo.  We model the two cells as two `Option`s and
`as_str` as a state transition; the value `none` returned by `as_str`
is the internal panic branch ("provider has been consumed"). -/

structure ErrorReason where
  error_provider : Option (Unit → String)
  reason_str : Option String

/-- `ErrorReason::new`: a pending provider and an empty memo. -/
def ErrorReason.new (producer : Unit → String) : ErrorReason :=
  ⟨some producer, none⟩

/-- `ErrorReason::as_str`: if the memo is filled return it; otherwise take
the provider out of the lock, run it, and fill the memo.  Returns the
string, the successor state, and how many times the provider ran during
this call; `none` is the "provider has been consumed" panic. -/
def ErrorReason.as_str (r : ErrorReason) : Option (String × ErrorReason × Nat) :=
  match r.reason_str with
  | some s => some (s, r, 0)
  | none =>
    match r.error_provider with
    | none => none
    | some producer =>
      let s := producer ()
      some (s, ⟨none, some s⟩, 1)

/-- Iterate `as_str` `n` times from a state, collecting the returned
strings and the total number of provider executions; `none` if any call
hits the panic branch. -/
def ErrorReason.asStrCalls : Nat → ErrorReason → Option (List String × ErrorReason × Nat)
  | 0, r => some ([], r, 0)
  | n + 1, r =>
    match r.as_str with
    | none => none
    | some (s, r', k) =>
      match ErrorReason.asStrCalls n r' with
      | none => none
      | some (ss, r'', total) => some (s :: ss, r'', k + total)

/-! ## Error model (`src/error.rs`) -/

inductive EnvarError where
  | ParseError (varname : String) (typename : String) (value : String) (reason : ErrorReason)
  | NotSet (varname : String)
  | TryDefault (varname : String)

/-! ## Default policy (`EnvarDef` in `src/core.rs`) -/

inductive EnvarDef (T : Type) where
  | Unset
  | Default (value : T)

def EnvarDef.to_option {T : Type} : EnvarDef T → Option T
  | EnvarDef.Default value => some value
  | EnvarDef.Unset => none

/-! ## Parse rules (`EnvarParse` impls in `src/core.rs`)

A parse rule for a target type `T` is a function
`String → String → Except EnvarError T` (variable name, raw string).
The trait dispatch is static in Rust; here the concrete rules are plain
functions and the generic adapters (`Option`, list) take the element
rule as an argument. -/

/-- Modelled from the spec: the module `special_constants` is declared in
`src/lib.rs` but its file is not under `src/`; the true-literal set is
taken from the spec's boolean literal contract. -/
def TRUE_ALTERNATIVES : List String :=
  ["true", "1", "yes", "y", "on", "enabled"]

/-- Modelled from the spec: the module `special_constants` is declared in
`src/lib.rs` but its file is not under `src/`; the false-literal set is
taken from the spec's boolean literal contract. -/
def FALSE_ALTERNATIVES : List String :=
  ["false", "0", "no", "n", "off", "disabled"]

/-- The `for`-loop membership test of the bool rule: does some alternative
match `value` ASCII-case-insensitively? -/
def matchesAny (alts : List String) (value : String) : Bool :=
  alts.any (fun alt => eqIgnoreAsciiCase alt value)

/-- `EnvarParse<String>::parse`: identity (no trimming). -/
def parseStringRule (_varname : String) (value : String) : Except EnvarError String :=
  .ok value

/-- `EnvarParse<bool>::parse`. -/
def parseBoolRule (varname : String) (value : String) : Except EnvarError Bool :=
  let value := rustTrim value
  if rustIsEmpty value then .ok false
  else if matchesAny TRUE_ALTERNATIVES value then .ok true
  else if matchesAny FALSE_ALTERNATIVES value then .ok false
  else
    .error (.ParseError varname "bool" value (ErrorReason.new (fun _ => value)))

/-- `ListEnvarConfig` (`src/list_envar.rs`): separator plus two filters. -/
structure ListEnvarConfig where
  SEP : String
  FILTER_EMPTY_STR : Bool
  FILTER_WHITESPACE : Bool

/-- The body of the `for` loop of `EnvarParse<ListEnvar<T, C>>::parse`,
recursing over the segments produced by `split`. -/
def parseListSegs {T : Type} (C : ListEnvarConfig)
    (pT : String → String → Except EnvarError T) (varname : String) :
    List String → Except EnvarError (List T)
  | [] => .ok []
  | item :: rest =>
    if C.FILTER_EMPTY_STR && rustIsEmpty item then
      parseListSegs C pT varname rest
    else
      let trimmed := rustTrim item
      if C.FILTER_WHITESPACE && rustIsEmpty trimmed then
        parseListSegs C pT varname rest
      else
        match pT varname trimmed with
        | .ok value =>
          match parseListSegs C pT varname rest with
          | .ok list => .ok (value :: list)
          | .error e => .error e
        | .error e => .error e

/-- `EnvarParse<ListEnvar<T, C>>::parse` (the `ListEnvar` wrapper is a
reference-counted `Vec`, modelled as the underlying list). -/
def parseListRule {T : Type} (C : ListEnvarConfig)
    (pT : String → String → Except EnvarError T) (varname : String)
    (value : String) : Except EnvarError (List T) :=
  parseListSegs C pT varname (rustSplit C.SEP value)

/-- `EnvarParse<Option<T>>::parse`. -/
def parseOptionRule {T : Type} (pT : String → String → Except EnvarError T)
    (varname : String) (value : String) : Except EnvarError (Option T) :=
  let value := rustTrim value
  if rustIsEmpty value then .error (.TryDefault varname)
  else
    match pT varname value with
    | .ok parsed => .ok (some parsed)
    | .error e => .error e

/-! ## Cached variable (`Envar` in `src/core.rs`)

`EnvarStore::OnStartup` holds a `OnceLock<T>` (an `Option T` here) and
`EnvarStore::OnDemand` a `Mutex<(Option<String>, Option<T>)>` (the pair
itself).  `value` threads the store state explicitly and reports the
number of parse-rule invocations made by the call. -/

inductive EnvarStore (T : Type) where
  | OnStartup (once_loaded : Option T)
  | OnDemand (entry : Option String × Option T)

structure Envar (T : Type) where
  _name : String
  _default_factory : Unit → EnvarDef T
  store : EnvarStore T

def Envar.on_demand {T : Type} (name : String) (default_factory : Unit → EnvarDef T) :
    Envar T :=
  ⟨name, default_factory, .OnDemand (none, none)⟩

def Envar.on_startup {T : Type} (name : String) (default_factory : Unit → EnvarDef T) :
    Envar T :=
  ⟨name, default_factory, .OnStartup none⟩

def Envar.name {T : Type} (e : Envar T) : String :=
  e._name

/-- The `reset_value` closure of the OnDemand branch of `Envar::value`.
Returns the result, the updated cache entry, and the number of parse
invocations.  On `Ok` the entry is set to `(env_value, Some value)`; the
`TryDefault`, error, and no-default paths return early without touching
the entry. -/
def resetValue {T : Type} (pT : String → String → Except EnvarError T)
    (name : String) (default_factory : Unit → EnvarDef T)
    (env_value : Option String) (entry : Option String × Option T) :
    Except EnvarError T × (Option String × Option T) × Nat :=
  match env_value with
  | none =>
    match (default_factory ()).to_option with
    | none => (.error (.NotSet name), entry, 0)
    | some value => (.ok value, (env_value, some value), 0)
  | some raw =>
    match pT name raw with
    | .ok value => (.ok value, (env_value, some value), 1)
    | .error (.TryDefault varname) =>
      match default_factory () with
      | .Default dflt => (.ok dflt, entry, 1)
      | .Unset => (.error (.NotSet varname), entry, 1)
    | .error e => (.error e, entry, 1)

/-- `Envar::value`, sequential projection.  `env` is the result of
`std::env::var(self._name)` at the time of the call.  Returns the result,
the variable with its updated store, and the number of times the parse
rule `pT` was invoked. -/
def Envar.value {T : Type} (pT : String → String → Except EnvarError T)
    (e : Envar T) (env : Option String) :
    Except EnvarError T × Envar T × Nat :=
  match e.store with
  | .OnStartup once_loaded =>
    match once_loaded with
    | some value => (.ok value, e, 0)
    | none =>
      match env with
      | some value =>
        match pT e._name value with
        | .ok parsed =>
          (.ok parsed, { e with store := .OnStartup (some parsed) }, 1)
        | .error (.TryDefault varname) =>
          match e._default_factory () with
          | .Default dflt =>
            (.ok dflt, { e with store := .OnStartup (some dflt) }, 1)
          | .Unset => (.error (.NotSet varname), e, 1)
        | .error err => (.error err, e, 1)
      | none =>
        match e._default_factory () with
        | .Default dflt =>
          (.ok dflt, { e with store := .OnStartup (some dflt) }, 0)
        | .Unset => (.error (.NotSet e._name), e, 0)
  | .OnDemand entry =>
    let recompute :=
      let (r, entry', n) := resetValue pT e._name e._default_factory env entry
      (r, { e with store := .OnDemand entry' }, n)
    if entry.fst = env then
      match entry.snd with
      | some value => (.ok value, e, 0)
      | none => recompute
    else
      recompute

/-- Run `value` over a sequence of environment observations (one per call),
collecting the results and the final state. -/
def Envar.valueIter {T : Type} (pT : String → String → Except EnvarError T)
    (e : Envar T) : List (Option String) → List (Except EnvarError T) × Envar T
  | [] => ([], e)
  | env :: envs =>
    let (r, e', _) := Envar.value pT e env
    let (rs, e'') := Envar.valueIter pT e' envs
    (r :: rs, e'')

/-- Survival test of a segment in the list adapter's `for` loop: a segment
is dropped when the empty filter catches it or the whitespace filter
catches its trimmed form. -/
def survives (C : ListEnvarConfig) (item : String) : Bool :=
  !(C.FILTER_EMPTY_STR && rustIsEmpty item) &&
    !(C.FILTER_WHITESPACE && rustIsEmpty (rustTrim item))

/-! ## Interleaving model of the OnStartup path (`src/core.rs`, lines 61-92)

For the concurrency claim the OnStartup branch of `Envar::value` is
re-cut into its atomic interactions with the shared `OnceLock` slot; the
purely local work (environment read — the environment is held fixed
during the race — parsing, default computation) happens between slot
interactions.  Each of `N` threads runs the same program:

* `start`: the initial `once_loaded.get()` check; if empty, compute the
  candidate locally (parse / default fallback of the env-present arm) or
  move to the absent arm.
* `checkedAbsent`: the second `once_loaded.get()` re-check of the
  env-absent arm.
* `ready c`: about to run `once_loaded.get_or_init(|| c)`: commit `c` if
  the slot is empty, otherwise adopt the committed value.
* `readySet c`: about to run `once_loaded.set(c)` of the env-absent arm:
  commit `c` if the slot is empty; either way return its own `c`.
* `done r`: the call returned `r`.
-/

inductive TPhase (T : Type) where
  | start
  | checkedAbsent
  | ready (c : T)
  | readySet (c : T)
  | done (r : Except EnvarError T)

/-- One atomic step of a single thread: given the shared slot and the
thread's phase, produce the new slot, the new phase, and 1 if this step
committed a value into the slot (0 otherwise). -/
def threadStep {T : Type} (pT : String → String → Except EnvarError T)
    (name : String) (default_factory : Unit → EnvarDef T) (env : Option String)
    (slot : Option T) : TPhase T → Option T × TPhase T × Nat
  | .start =>
    match slot with
    | some w => (slot, .done (.ok w), 0)
    | none =>
      match env with
      | some raw =>
        match pT name raw with
        | .ok v => (slot, .ready v, 0)
        | .error (.TryDefault varname) =>
          match default_factory () with
          | .Default dflt => (slot, .ready dflt, 0)
          | .Unset => (slot, .done (.error (.NotSet varname)), 0)
        | .error e => (slot, .done (.error e), 0)
      | none => (slot, .checkedAbsent, 0)
  | .checkedAbsent =>
    match slot with
    | some w => (slot, .done (.ok w), 0)
    | none =>
      match default_factory () with
      | .Default dflt => (slot, .readySet dflt, 0)
      | .Unset => (slot, .done (.error (.NotSet name)), 0)
  | .ready c =>
    match slot with
    | some w => (slot, .done (.ok w), 0)
    | none => (some c, .done (.ok c), 1)
  | .readySet c =>
    match slot with
    | some _ => (slot, .done (.ok c), 0)
    | none => (some c, .done (.ok c), 1)
  | .done r => (slot, .done r, 0)

/-- Shared state of the race: the write-once slot, one phase per thread,
and the running count of slot commits. -/
structure SysState (T : Type) where
  slot : Option T
  phases : List (TPhase T)
  commits : Nat

/-- Scheduler step: let thread `i` take its next atomic step (no-op for
an out-of-range index). -/
def sysStep {T : Type} (pT : String → String → Except EnvarError T)
    (name : String) (default_factory : Unit → EnvarDef T) (env : Option String)
    (s : SysState T) (i : Nat) : SysState T :=
  match s.phases.get? i with
  | none => s
  | some ph =>
    let (slot', ph', k) := threadStep pT name default_factory env s.slot ph
    ⟨slot', s.phases.set i ph', s.commits + k⟩

/-- Run an arbitrary schedule (a list of thread indices). -/
def sysRun {T : Type} (pT : String → String → Except EnvarError T)
    (name : String) (default_factory : Unit → EnvarDef T) (env : Option String)
    (sched : List Nat) (s : SysState T) : SysState T :=
  sched.foldl (sysStep pT name default_factory env) s

/-- The initial race state: empty slot, `N` threads at `start`, no commit. -/
def sysInit {T : Type} (N : Nat) : SysState T :=
  ⟨none, List.replicate N .start, 0⟩

/-- The value a first-time OnStartup read resolves (deterministically,
for a fixed environment) before any slot interaction: parse if present,
default fallback on `TryDefault` or absence. -/
def startupResolve {T : Type} (pT : String → String → Except EnvarError T)
    (name : String) (default_factory : Unit → EnvarDef T) :
    Option String → Except EnvarError T
  | some raw =>
    match pT name raw with
    | .ok v => .ok v
    | .error (.TryDefault varname) =>
      match default_factory () with
      | .Default dflt => .ok dflt
      | .Unset => .error (.NotSet varname)
    | .error e => .error e
  | none =>
    match default_factory () with
    | .Default dflt => .ok dflt
    | .Unset => .error (.NotSet name)

/-- Per-thread invariant of the race, for winning candidate `c`: the
absent arm is only ever entered when the environment is absent; every
computed candidate equals `c`; every finished thread returned `.ok c`,
and only after the slot was committed. -/
def phaseOk {T : Type} (c : T) (env : Option String) (slot : Option T) :
    TPhase T → Prop
  | .start => True
  | .checkedAbsent => env = none
  | .ready d => d = c
  | .readySet d => d = c
  | .done r => r = .ok c ∧ slot = some c

/-- System invariant of the race: the slot is empty with no commit yet,
or holds exactly the candidate `c` after exactly one commit; and every
thread satisfies `phaseOk`. -/
def sysInv {T : Type} (c : T) (env : Option String) (s : SysState T) : Prop :=
  (s.slot = none ∧ s.commits = 0 ∨ s.slot = some c ∧ s.commits = 1) ∧
    ∀ ph ∈ s.phases, phaseOk c env s.slot ph

/-! ## Helper lemmas -/

/-- No string matches both the true-literal set and the false-literal set
(ASCII-case-insensitively): the two sets have disjoint lowerings. -/
theorem true_false_alts_disjoint (v : String)
    (hT : matchesAny TRUE_ALTERNATIVES v = true) :
    matchesAny FALSE_ALTERNATIVES v = false := by
  by_contra hF
  rw [Bool.not_eq_false] at hF
  simp only [matchesAny, TRUE_ALTERNATIVES, FALSE_ALTERNATIVES, List.any_cons,
    List.any_nil, Bool.or_eq_true, Bool.or_eq_false_iff, eqIgnoreAsciiCase,
    beq_iff_eq] at hT hF
  rcases hT with h₁ | h₁ | h₁ | h₁ | h₁ | (h₁ | h₁) <;>
    rcases hF with h₂ | h₂ | h₂ | h₂ | h₂ | (h₂ | h₂) <;>
    first
      | exact absurd h₂ (by decide)
      | exact absurd h₁ (by decide)
      | exact absurd (h₁.trans h₂.symm) (by decide)

/-! ## Theorems for the claims -/

/-- C6: parsing `"a,,b,  ,c"` as a list of strings under separator `","`
with both filters enabled yields `["a","b","c"]`; with both filters
disabled it yields `["a","","b","","c"]` (surviving segments trimmed
before element parsing, order preserved). -/
theorem claim_C6_list_concrete (varname : String) :
    parseListRule ⟨",", true, true⟩ parseStringRule varname "a,,b,  ,c" =
        .ok ["a", "b", "c"] ∧
      parseListRule ⟨",", false, false⟩ parseStringRule varname "a,,b,  ,c" =
        .ok ["a", "", "b", "", "c"] :=
  ⟨rfl, rfl⟩

/-- C7: the boolean rule returns `Ok(false)` on inputs trimming to empty;
otherwise `Ok(true)` iff the trimmed input matches a true alternative
(case-insensitively), `Ok(false)` iff it matches a false alternative, and
a `ParseError` with type name `"bool"` on anything else. -/
theorem claim_C7_bool_total (varname s : String) :
    (rustIsEmpty (rustTrim s) = true → parseBoolRule varname s = .ok false) ∧
      (rustIsEmpty (rustTrim s) = false →
        (parseBoolRule varname s = .ok true ↔
            matchesAny TRUE_ALTERNATIVES (rustTrim s) = true) ∧
          (parseBoolRule varname s = .ok false ↔
            matchesAny FALSE_ALTERNATIVES (rustTrim s) = true) ∧
          (matchesAny TRUE_ALTERNATIVES (rustTrim s) = false →
            matchesAny FALSE_ALTERNATIVES (rustTrim s) = false →
            parseBoolRule varname s =
              .error (.ParseError varname "bool" (rustTrim s)
                (ErrorReason.new (fun _ => rustTrim s))))) := by
  constructor
  · intro h
    simp [parseBoolRule, h]
  · intro h
    cases hT : matchesAny TRUE_ALTERNATIVES (rustTrim s)
    · cases hF : matchesAny FALSE_ALTERNATIVES (rustTrim s)
      · refine ⟨?_, ?_, ?_⟩ <;> simp [parseBoolRule, h, hT, hF]
      · refine ⟨?_, ?_, ?_⟩ <;> simp [parseBoolRule, h, hT, hF]
    · have hF := true_false_alts_disjoint (rustTrim s) hT
      refine ⟨?_, ?_, ?_⟩ <;> simp [parseBoolRule, h, hT, hF]

/-- Witness for C7 at `s = " On "`: nonempty after trim, matches the true
set, so the rule returns `Ok(true)`. -/
theorem claim_C7_bool_total_witness :
    parseBoolRule "V" " On " = .ok true := by
  have h := (claim_C7_bool_total "V" " On ").2 (by decide)
  exact h.1.mpr (by decide)

/-- C10 witness helper view is inlined; the rule rejects exactly when the
trimmed input is non-empty and matches neither literal set, and then the
error's value field and lazily computed reason text are both the trimmed
input. -/
theorem claim_C10_bool_error_trimmed (varname s : String)
    (h1 : rustIsEmpty (rustTrim s) = false)
    (h2 : matchesAny TRUE_ALTERNATIVES (rustTrim s) = false)
    (h3 : matchesAny FALSE_ALTERNATIVES (rustTrim s) = false) :
    parseBoolRule varname s =
        .error (.ParseError varname "bool" (rustTrim s)
          (ErrorReason.new (fun _ => rustTrim s))) ∧
      (ErrorReason.new (fun _ => rustTrim s)).as_str =
        some (rustTrim s, ⟨none, some (rustTrim s)⟩, 1) := by
  constructor
  · simp [parseBoolRule, h1, h2, h3]
  · rfl

/-- Witness for C10 at `s = " zzz "`: the carried value and the computed
reason are `"zzz"`, which differs from the verbatim input. -/
theorem claim_C10_bool_error_trimmed_witness :
    rustTrim " zzz " = "zzz" ∧ " zzz " ≠ "zzz" ∧
      parseBoolRule "V" " zzz " =
        .error (.ParseError "V" "bool" (rustTrim " zzz ")
          (ErrorReason.new (fun _ => rustTrim " zzz "))) ∧
      (ErrorReason.new (fun _ => rustTrim " zzz ")).as_str =
        some (rustTrim " zzz ", ⟨none, some (rustTrim " zzz ")⟩, 1) :=
  ⟨by decide, by decide,
    claim_C10_bool_error_trimmed "V" " zzz " (by decide) (by decide) (by decide)⟩

/-- `as_str` calls on an already-memoized diagnostic: every call returns
the memo, the state never changes, and the provider never runs. -/
theorem asStrCalls_memoized (v : String) (m : Nat) :
    ErrorReason.asStrCalls m ⟨none, some v⟩ =
      some (List.replicate m v, ⟨none, some v⟩, 0) := by
  induction m with
  | zero => rfl
  | succ k ih =>
    simp [ErrorReason.asStrCalls, ErrorReason.as_str, ih, List.replicate_succ]

/-- C8: a freshly created `ErrorReason` serves any number `n` of `as_str`
calls without ever reaching the "provider has been consumed" panic (the
result is `some`), every call returns the same string `producer ()`, and
the producer executes `min n 1 ≤ 1` times in total. -/
theorem claim_C8_error_reason_once (producer : Unit → String) (n : Nat) :
    ErrorReason.asStrCalls n (ErrorReason.new producer) =
      some (List.replicate n (producer ()),
        (if n = 0 then ErrorReason.new producer
          else ⟨none, some (producer ())⟩ : ErrorReason),
        min n 1) := by
  cases n with
  | zero => rfl
  | succ m =>
    simp [ErrorReason.asStrCalls, ErrorReason.as_str, ErrorReason.new,
      asStrCalls_memoized, List.replicate_succ, Nat.succ_min_succ]

/-- A filtered-out segment contributes nothing to the list parse. -/
theorem parseListSegs_skip {T : Type} (C : ListEnvarConfig)
    (pT : String → String → Except EnvarError T) (varname item : String)
    (rest : List String) (h : survives C item = false) :
    parseListSegs C pT varname (item :: rest) = parseListSegs C pT varname rest := by
  cases hx : (C.FILTER_EMPTY_STR && rustIsEmpty item) with
  | true => simp [parseListSegs, hx]
  | false =>
    cases hy : (C.FILTER_WHITESPACE && rustIsEmpty (rustTrim item)) with
    | true => simp [parseListSegs, hx, hy]
    | false => exact absurd h (by simp [survives, hx, hy])

/-- A surviving segment whose trimmed form parses is consed onto the
parse of the remaining segments (error of the tail propagates). -/
theorem parseListSegs_cons_ok {T : Type} (C : ListEnvarConfig)
    (pT : String → String → Except EnvarError T) (varname item : String)
    (rest : List String) (v : T) (hs : survives C item = true)
    (hp : pT varname (rustTrim item) = .ok v) :
    parseListSegs C pT varname (item :: rest) =
      match parseListSegs C pT varname rest with
      | .ok list => .ok (v :: list)
      | .error e => .error e := by
  have h' := hs
  simp only [survives, Bool.and_eq_true, Bool.not_eq_true'] at h'
  obtain ⟨hx, hy⟩ := h'
  simp [parseListSegs, hx, hy, hp]

/-- A surviving segment whose trimmed form fails to parse aborts the
whole list parse with that error. -/
theorem parseListSegs_cons_err {T : Type} (C : ListEnvarConfig)
    (pT : String → String → Except EnvarError T) (varname item : String)
    (rest : List String) (err : EnvarError) (hs : survives C item = true)
    (hp : pT varname (rustTrim item) = .error err) :
    parseListSegs C pT varname (item :: rest) = .error err := by
  have h' := hs
  simp only [survives, Bool.and_eq_true, Bool.not_eq_true'] at h'
  obtain ⟨hx, hy⟩ := h'
  simp [parseListSegs, hx, hy, hp]

/-- If every segment is filtered out, the list parse yields the empty list. -/
theorem parseListSegs_all_skip {T : Type} (C : ListEnvarConfig)
    (pT : String → String → Except EnvarError T) (varname : String)
    (segs : List String) (h : ∀ item ∈ segs, survives C item = false) :
    parseListSegs C pT varname segs = .ok [] := by
  induction segs with
  | nil => rfl
  | cons item rest ih =>
    rw [parseListSegs_skip C pT varname item rest (h item (List.mem_cons_self item rest))]
    exact ih fun x hx => h x (List.mem_cons_of_mem item hx)

/-- C5: in the list adapter, the first surviving segment whose recursive
parse fails aborts the whole parse with exactly that segment's error (no
partial results), and an input all of whose segments are filtered out
parses to the empty list. -/
theorem claim_C5_list_first_error (T : Type) (C : ListEnvarConfig)
    (pT : String → String → Except EnvarError T) (varname : String) :
    (∀ (pre : List String) (bad : String) (post : List String) (err : EnvarError),
        (∀ item ∈ pre, survives C item = false ∨ ∃ v, pT varname (rustTrim item) = .ok v) →
        survives C bad = true → pT varname (rustTrim bad) = .error err →
        parseListSegs C pT varname (pre ++ bad :: post) = .error err) ∧
      (∀ s : String, (∀ item ∈ rustSplit C.SEP s, survives C item = false) →
        parseListRule C pT varname s = .ok []) := by
  constructor
  · intro pre bad post err hpre hbad herr
    induction pre with
    | nil => simpa using parseListSegs_cons_err C pT varname bad post err hbad herr
    | cons item pre' ih =>
      have htail := ih fun x hx => hpre x (List.mem_cons_of_mem item hx)
      cases hs : survives C item with
      | false =>
        rw [List.cons_append, parseListSegs_skip C pT varname item _ hs]
        exact htail
      | true =>
        rcases hpre item (List.mem_cons_self item pre') with hskip | ⟨v, hok⟩
        · rw [hs] at hskip
          exact absurd hskip (by decide)
        · rw [List.cons_append,
            parseListSegs_cons_ok C pT varname item (pre' ++ bad :: post) v hs hok, htail]
  · intro s h
    exact parseListSegs_all_skip C pT varname _ h

/-- Witness for C5: parsing `["yes", "  ", "zz", "no"]` as booleans with
both filters on aborts at `"zz"` with its bool parse error. -/
theorem claim_C5_list_first_error_witness :
    parseListSegs ⟨",", true, true⟩ parseBoolRule "V" (["yes", "  "] ++ "zz" :: ["no"]) =
      .error (.ParseError "V" "bool" "zz" (ErrorReason.new (fun _ => "zz"))) :=
  (claim_C5_list_first_error Bool ⟨",", true, true⟩ parseBoolRule "V").1
    ["yes", "  "] "zz" ["no"] _
    (by
      intro item h
      rcases List.mem_cons.mp h with rfl | h
      · exact Or.inr ⟨true, rfl⟩
      · rcases List.mem_cons.mp h with rfl | h
        · exact Or.inl (by decide)
        · exact absurd h (List.not_mem_nil item))
    (by decide) rfl

/-- `Envar::value` never returns the internal `TryDefault` signal, for any
parse rule and any cache state: both cache branches convert it into a
default value or a `NotSet` error before returning. -/
theorem value_ne_trydefault {T : Type} (pT : String → String → Except EnvarError T)
    (e : Envar T) (env : Option String) (vn : String) :
    (Envar.value pT e env).1 ≠ .error (.TryDefault vn) := by
  rcases e with ⟨name, dflt, store⟩
  cases store with
  | OnStartup once =>
    cases once with
    | some v => simp [Envar.value]
    | none =>
      cases env with
      | none =>
        cases h : dflt () with
        | Default d => simp [Envar.value, h]
        | Unset => simp [Envar.value, h]
      | some raw =>
        cases hp : pT name raw with
        | ok v => simp [Envar.value, hp]
        | error err =>
          cases err with
          | TryDefault vn' =>
            cases h : dflt () with
            | Default d => simp [Envar.value, hp, h]
            | Unset => simp [Envar.value, hp, h]
          | ParseError a b c d => simp [Envar.value, hp]
          | NotSet a => simp [Envar.value, hp]
  | OnDemand entry =>
    by_cases hm : entry.1 = env
    · cases hv : entry.2 with
      | some v => simp [Envar.value, hm, hv]
      | none =>
        cases env with
        | none =>
          cases h : (dflt ()).to_option with
          | some d => simp [Envar.value, resetValue, hm, hv, h]
          | none => simp [Envar.value, resetValue, hm, hv, h]
        | some raw =>
          cases hp : pT name raw with
          | ok v => simp [Envar.value, resetValue, hm, hv, hp]
          | error err =>
            cases err with
            | TryDefault vn' =>
              cases h : dflt () with
              | Default d => simp [Envar.value, resetValue, hm, hv, hp, h]
              | Unset => simp [Envar.value, resetValue, hm, hv, hp, h]
            | ParseError a b c d => simp [Envar.value, resetValue, hm, hv, hp]
            | NotSet a => simp [Envar.value, resetValue, hm, hv, hp]
    · cases env with
      | none =>
        cases h : (dflt ()).to_option with
        | some d => simp [Envar.value, resetValue, hm, h]
        | none => simp [Envar.value, resetValue, hm, h]
      | some raw =>
        cases hp : pT name raw with
        | ok v => simp [Envar.value, resetValue, hm, hp]
        | error err =>
          cases err with
          | TryDefault vn' =>
            cases h : dflt () with
            | Default d => simp [Envar.value, resetValue, hm, hp, h]
            | Unset => simp [Envar.value, resetValue, hm, hp, h]
          | ParseError a b c d => simp [Envar.value, resetValue, hm, hp]
          | NotSet a => simp [Envar.value, resetValue, hm, hp]

/-- C4: for `Option`-of-`T` targets the internal `TryDefault` signal never
reaches the caller of `value()`; a raw string trimming to empty resolves
to the configured default (if any) or a `NotSet` error (if none), and a
non-empty raw string is parsed by `T`'s rule with success wrapped as
`some`. -/
theorem claim_C4_option_trydefault_internal (T : Type)
    (pT : String → String → Except EnvarError T) :
    (∀ (e : Envar (Option T)) (env : Option String) (vn : String),
        (Envar.value (parseOptionRule pT) e env).1 ≠ .error (.TryDefault vn)) ∧
      (∀ (name raw : String) (dfltF : Unit → EnvarDef (Option T)),
        rustIsEmpty (rustTrim raw) = true →
        (∀ d, dfltF () = .Default d →
          (Envar.value (parseOptionRule pT)
              ⟨name, dfltF, .OnStartup none⟩ (some raw)).1 = .ok d ∧
            (Envar.value (parseOptionRule pT)
              ⟨name, dfltF, .OnDemand (none, none)⟩ (some raw)).1 = .ok d) ∧
          (dfltF () = .Unset →
            (Envar.value (parseOptionRule pT)
                ⟨name, dfltF, .OnStartup none⟩ (some raw)).1 = .error (.NotSet name) ∧
              (Envar.value (parseOptionRule pT)
                ⟨name, dfltF, .OnDemand (none, none)⟩ (some raw)).1 =
                .error (.NotSet name))) ∧
      (∀ (vn raw : String), rustIsEmpty (rustTrim raw) = false →
        parseOptionRule pT vn raw = Except.map some (pT vn (rustTrim raw))) := by
  refine ⟨fun e env vn => value_ne_trydefault (parseOptionRule pT) e env vn, ?_, ?_⟩
  · intro name raw dfltF hempty
    have hsig : parseOptionRule pT name raw = .error (.TryDefault name) := by
      simp [parseOptionRule, hempty]
    constructor
    · intro d hd
      constructor
      · simp [Envar.value, hsig, hd]
      · simp [Envar.value, resetValue, hsig, hd]
    · intro hu
      constructor
      · simp [Envar.value, hsig, hu]
      · simp [Envar.value, resetValue, hsig, hu]
  · intro vn raw hne
    cases hp : pT vn (rustTrim raw) with
    | ok v => simp [parseOptionRule, hne, hp, Except.map]
    | error e => simp [parseOptionRule, hne, hp, Except.map]

/-- Witness for C4: an `Option String` variable with raw value `"  "`
resolves to the default `some "d"` when one is configured and to
`NotSet` when none is. -/
theorem claim_C4_option_trydefault_internal_witness :
    (Envar.value (parseOptionRule parseStringRule)
        ⟨"V", (fun _ => .Default (some "d")), .OnDemand (none, none)⟩ (some "  ")).1 =
        .ok (some "d") ∧
      (Envar.value (parseOptionRule parseStringRule)
        ⟨"V", (fun _ => .Unset), .OnStartup none⟩ (some "  ")).1 =
        .error (.NotSet "V") := by
  constructor
  · exact (((claim_C4_option_trydefault_internal String parseStringRule).2.1
      "V" "  " _ (by decide)).1 (some "d") rfl).2
  · exact (((claim_C4_option_trydefault_internal String parseStringRule).2.1
      "V" "  " _ (by decide)).2 rfl).1

/-- A committed OnStartup variable returns its committed value with no
parse, for every environment state. -/
theorem value_of_committed {T : Type} (pT : String → String → Except EnvarError T)
    (e : Envar T) (v : T) (h : e.store = .OnStartup (some v)) (env : Option String) :
    Envar.value pT e env = (.ok v, e, 0) := by
  rcases e with ⟨name, dflt, store⟩
  simp only at h
  subst h
  rfl

/-- OnDemand cache hit: stored raw string equals the current one and a
parsed value is cached. -/
theorem value_on_demand_hit {T : Type} (pT : String → String → Except EnvarError T)
    (name : String) (dfltF : Unit → EnvarDef T) (entry : Option String × Option T)
    (env : Option String) (v : T) (h1 : entry.1 = env) (h2 : entry.2 = some v) :
    Envar.value pT ⟨name, dfltF, .OnDemand entry⟩ env =
      (.ok v, ⟨name, dfltF, .OnDemand entry⟩, 0) := by
  simp [Envar.value, h1, h2]

/-- OnDemand cache miss: the call defers to `reset_value`. -/
theorem value_on_demand_miss {T : Type} (pT : String → String → Except EnvarError T)
    (name : String) (dfltF : Unit → EnvarDef T) (entry : Option String × Option T)
    (env : Option String) (h : ¬(entry.1 = env ∧ entry.2.isSome = true)) :
    Envar.value pT ⟨name, dfltF, .OnDemand entry⟩ env =
      ((resetValue pT name dfltF env entry).1,
        ⟨name, dfltF, .OnDemand (resetValue pT name dfltF env entry).2.1⟩,
        (resetValue pT name dfltF env entry).2.2) := by
  rcases Decidable.em (entry.1 = env) with h1 | h1
  · cases hv : entry.2 with
    | some v => exact absurd ⟨h1, by simp [hv]⟩ h
    | none => simp [Envar.value, h1, hv]
  · simp [Envar.value, h1]

/-- C2: once a call to `value()` has committed a value to an OnStartup
variable's write-once slot, every later call returns that committed value
(and leaves the state untouched, invoking no parse), for every sequence
of intervening environment changes or removals. -/
theorem claim_C2_onstartup_pinned {T : Type}
    (pT : String → String → Except EnvarError T) (e : Envar T)
    (env1 : Option String) (v : T)
    (h : ((Envar.value pT e env1).2.1).store = .OnStartup (some v))
    (envs : List (Option String)) :
    Envar.valueIter pT (Envar.value pT e env1).2.1 envs =
      (envs.map (fun _ => Except.ok v), (Envar.value pT e env1).2.1) := by
  induction envs with
  | nil => rfl
  | cons env envs ih =>
    simp only [Envar.valueIter, value_of_committed pT _ v h env, List.map_cons]
    rw [ih]

/-- Witness for C2: `"1"` parses as `true` and commits; later reads with
the variable removed and then set to `"no"` still observe `true`. -/
theorem claim_C2_onstartup_pinned_witness :
    Envar.valueIter parseBoolRule
        ((Envar.value parseBoolRule
          ⟨"N", (fun _ => .Unset), .OnStartup none⟩ (some "1")).2.1)
        [none, some "no"] =
      ([Except.ok true, Except.ok true],
        (Envar.value parseBoolRule
          ⟨"N", (fun _ => .Unset), .OnStartup none⟩ (some "1")).2.1) := by
  have h := claim_C2_onstartup_pinned parseBoolRule
    ⟨"N", (fun _ => .Unset), .OnStartup none⟩ (some "1") true rfl [none, some "no"]
  simpa using h

/-- C3: a parse failure other than `TryDefault` flows back to the caller
untouched and mutates no cache state: an OnDemand entry (not currently a
cache hit) keeps its stored raw string and cached value, an OnStartup
slot stays uncommitted, and a later OnStartup read of a raw string that
parses may still succeed. -/
theorem claim_C3_parse_failure_no_mutation {T : Type}
    (pT : String → String → Except EnvarError T) (name : String)
    (dfltF : Unit → EnvarDef T) (raw : String) (err : EnvarError)
    (herr : pT name raw = .error err) (hnot : ∀ vn, err ≠ .TryDefault vn) :
    (∀ entry : Option String × Option T, (entry.1 = some raw → entry.2 = none) →
        Envar.value pT ⟨name, dfltF, .OnDemand entry⟩ (some raw) =
          (.error err, ⟨name, dfltF, .OnDemand entry⟩, 1)) ∧
      Envar.value pT ⟨name, dfltF, .OnStartup none⟩ (some raw) =
        (.error err, ⟨name, dfltF, .OnStartup none⟩, 1) ∧
      (∀ (raw2 : String) (v : T), pT name raw2 = .ok v →
        (Envar.value pT ⟨name, dfltF, .OnStartup none⟩ (some raw2)).1 = .ok v) := by
  have hreset : resetValue pT name dfltF (some raw) = fun entry => (.error err, entry, 1) := by
    funext entry
    cases err with
    | TryDefault vn' => exact absurd rfl (hnot vn')
    | ParseError a b c d => simp [resetValue, herr]
    | NotSet a => simp [resetValue, herr]
  refine ⟨?_, ?_, ?_⟩
  · intro entry hmiss
    rw [value_on_demand_miss pT name dfltF entry (some raw) ?_, hreset]
    intro ⟨h1, h2⟩
    rw [hmiss h1] at h2
    simp at h2
  · cases err with
    | TryDefault vn' => exact absurd rfl (hnot vn')
    | ParseError a b c d => simp [Envar.value, herr]
    | NotSet a => simp [Envar.value, herr]
  · intro raw2 v hp
    simp [Envar.value, hp]

/-- Witness for C3: `"zz"` fails the bool rule; the OnDemand entry and the
call's result are exactly the error with no cache mutation, and an
uncommitted OnStartup variable still succeeds on a later good read. -/
theorem claim_C3_parse_failure_no_mutation_witness :
    Envar.value parseBoolRule ⟨"V", (fun _ => .Unset), .OnDemand (none, none)⟩ (some "zz") =
        (.error (.ParseError "V" "bool" "zz" (ErrorReason.new (fun _ => "zz"))),
          ⟨"V", (fun _ => .Unset), .OnDemand (none, none)⟩, 1) ∧
      (Envar.value parseBoolRule ⟨"V", (fun _ => .Unset), .OnStartup none⟩ (some "yes")).1 =
        .ok true := by
  have h := claim_C3_parse_failure_no_mutation parseBoolRule "V" (fun _ => .Unset) "zz"
    (.ParseError "V" "bool" "zz" (ErrorReason.new (fun _ => "zz"))) rfl
    (fun vn hc => EnvarError.noConfusion hc)
  exact ⟨h.1 (none, none) (fun _ => rfl), h.2.2 "yes" true rfl⟩

/-- Counterexample to C1 as stated: an OnDemand `Option String` variable
with default `some "d"` and raw value `"  "` (unchanged between the two
reads) returns equal values on both calls, but the parse rule IS invoked
again on the second call (invocation count 1, the claim says it is not
re-invoked), because the `TryDefault` path resolves to the default
without committing the cache entry. -/
theorem claim_C1_not_reinvoked_counterexample :
    (Envar.value (parseOptionRule parseStringRule)
        ⟨"V", (fun _ => .Default (some "d")), .OnDemand (none, none)⟩ (some "  ")).1 =
      .ok (some "d") ∧
    (Envar.value (parseOptionRule parseStringRule)
        ((Envar.value (parseOptionRule parseStringRule)
          ⟨"V", (fun _ => .Default (some "d")), .OnDemand (none, none)⟩ (some "  ")).2.1)
        (some "  ")).1 = .ok (some "d") ∧
    (Envar.value (parseOptionRule parseStringRule)
        ((Envar.value (parseOptionRule parseStringRule)
          ⟨"V", (fun _ => .Default (some "d")), .OnDemand (none, none)⟩ (some "  ")).2.1)
        (some "  ")).2.2 = 1 :=
  ⟨rfl, rfl, rfl⟩

/-- C1 (amended): for an OnDemand variable, (a) if the present raw string
parses successfully, two successive `value()` calls with the raw string
unchanged return equal results and the parse rule is not invoked on the
second call; (b) with the variable absent at both reads the two calls
return equal results and the second invokes no parse; (c) starting from a
fresh entry, if the raw string changes and the new raw string parses
successfully, the second call returns that newly parsed value. -/
theorem claim_C1_on_demand_cache_amended {T : Type}
    (pT : String → String → Except EnvarError T) (name : String)
    (dfltF : Unit → EnvarDef T) :
    (∀ (entry : Option String × Option T) (raw : String) (v : T),
        pT name raw = .ok v →
        (Envar.value pT
            (Envar.value pT ⟨name, dfltF, .OnDemand entry⟩ (some raw)).2.1 (some raw)).1 =
          (Envar.value pT ⟨name, dfltF, .OnDemand entry⟩ (some raw)).1 ∧
        (Envar.value pT
            (Envar.value pT ⟨name, dfltF, .OnDemand entry⟩ (some raw)).2.1 (some raw)).2.2 = 0) ∧
      (∀ entry : Option String × Option T,
        (Envar.value pT
            (Envar.value pT ⟨name, dfltF, .OnDemand entry⟩ none).2.1 none).1 =
          (Envar.value pT ⟨name, dfltF, .OnDemand entry⟩ none).1 ∧
        (Envar.value pT
            (Envar.value pT ⟨name, dfltF, .OnDemand entry⟩ none).2.1 none).2.2 = 0) ∧
      (∀ (raw1 raw2 : String) (v2 : T), raw1 ≠ raw2 → pT name raw2 = .ok v2 →
        (Envar.value pT
            (Envar.value pT ⟨name, dfltF, .OnDemand (none, none)⟩ (some raw1)).2.1
            (some raw2)).1 = .ok v2) := by
  refine ⟨?_, ?_, ?_⟩
  · intro entry raw v hok
    by_cases h1 : entry.1 = some raw
    · cases hv : entry.2 with
      | some c =>
        have hfirst := value_on_demand_hit pT name dfltF entry (some raw) c h1 hv
        rw [hfirst]
        rw [value_on_demand_hit pT name dfltF entry (some raw) c h1 hv]
        exact ⟨rfl, rfl⟩
      | none =>
        have hfirst : Envar.value pT ⟨name, dfltF, .OnDemand entry⟩ (some raw) =
            (.ok v, ⟨name, dfltF, .OnDemand (some raw, some v)⟩, 1) := by
          rw [value_on_demand_miss pT name dfltF entry (some raw) (by simp [hv])]
          simp [resetValue, hok]
        rw [hfirst]
        rw [value_on_demand_hit pT name dfltF (some raw, some v) (some raw) v rfl rfl]
        exact ⟨rfl, rfl⟩
    · have hfirst : Envar.value pT ⟨name, dfltF, .OnDemand entry⟩ (some raw) =
          (.ok v, ⟨name, dfltF, .OnDemand (some raw, some v)⟩, 1) := by
        rw [value_on_demand_miss pT name dfltF entry (some raw) (fun hc => h1 hc.1)]
        simp [resetValue, hok]
      rw [hfirst]
      rw [value_on_demand_hit pT name dfltF (some raw, some v) (some raw) v rfl rfl]
      exact ⟨rfl, rfl⟩
  · intro entry
    by_cases h1 : entry.1 = (none : Option String)
    · cases hv : entry.2 with
      | some c =>
        have hfirst := value_on_demand_hit pT name dfltF entry none c h1 hv
        rw [hfirst]
        rw [value_on_demand_hit pT name dfltF entry none c h1 hv]
        exact ⟨rfl, rfl⟩
      | none =>
        cases hd : (dfltF ()).to_option with
        | some d =>
          have hfirst : Envar.value pT ⟨name, dfltF, .OnDemand entry⟩ none =
              (.ok d, ⟨name, dfltF, .OnDemand (none, some d)⟩, 0) := by
            rw [value_on_demand_miss pT name dfltF entry none (by simp [hv])]
            simp [resetValue, hd]
          rw [hfirst]
          rw [value_on_demand_hit pT name dfltF (none, some d) none d rfl rfl]
          exact ⟨rfl, rfl⟩
        | none =>
          have hfirst : Envar.value pT ⟨name, dfltF, .OnDemand entry⟩ none =
              (.error (.NotSet name), ⟨name, dfltF, .OnDemand entry⟩, 0) := by
            rw [value_on_demand_miss pT name dfltF entry none (by simp [hv])]
            simp [resetValue, hd]
          simp [hfirst]
    · cases hd : (dfltF ()).to_option with
      | some d =>
        have hfirst : Envar.value pT ⟨name, dfltF, .OnDemand entry⟩ none =
            (.ok d, ⟨name, dfltF, .OnDemand (none, some d)⟩, 0) := by
          rw [value_on_demand_miss pT name dfltF entry none (fun hc => h1 hc.1)]
          simp [resetValue, hd]
        rw [hfirst]
        rw [value_on_demand_hit pT name dfltF (none, some d) none d rfl rfl]
        exact ⟨rfl, rfl⟩
      | none =>
        have hfirst : Envar.value pT ⟨name, dfltF, .OnDemand entry⟩ none =
            (.error (.NotSet name), ⟨name, dfltF, .OnDemand entry⟩, 0) := by
          rw [value_on_demand_miss pT name dfltF entry none (fun hc => h1 hc.1)]
          simp [resetValue, hd]
        simp [hfirst]
  · intro raw1 raw2 v2 hne hok2
    have hmiss2 : ∀ entry' : Option String × Option T, entry'.1 = none ∨ entry'.1 = some raw1 →
        (Envar.value pT ⟨name, dfltF, .OnDemand entry'⟩ (some raw2)).1 = .ok v2 := by
      intro entry' h'
      have hm : ¬(entry'.1 = some raw2 ∧ entry'.2.isSome = true) := by
        rcases h' with h' | h' <;> rw [h'] <;> intro hc <;>
          exact absurd hc.1 (by simp_all)
      rw [value_on_demand_miss pT name dfltF entry' (some raw2) hm]
      simp [resetValue, hok2]
    cases hp1 : pT name raw1 with
    | ok w =>
      have hfirst : Envar.value pT ⟨name, dfltF, .OnDemand ((none : Option String), (none : Option T))⟩ (some raw1) =
          (.ok w, ⟨name, dfltF, .OnDemand (some raw1, some w)⟩, 1) := by
        rw [value_on_demand_miss pT name dfltF (none, none) (some raw1) (by simp)]
        simp [resetValue, hp1]
      rw [hfirst]
      exact hmiss2 (some raw1, some w) (Or.inr rfl)
    | error e =>
      cases e with
      | TryDefault vn' =>
        cases hd : dfltF () with
        | Default d =>
          have hfirst : Envar.value pT ⟨name, dfltF, .OnDemand ((none : Option String), (none : Option T))⟩ (some raw1) =
              (.ok d, ⟨name, dfltF, .OnDemand (none, none)⟩, 1) := by
            rw [value_on_demand_miss pT name dfltF (none, none) (some raw1) (by simp)]
            simp [resetValue, hp1, hd]
          rw [hfirst]
          exact hmiss2 (none, none) (Or.inl rfl)
        | Unset =>
          have hfirst : Envar.value pT ⟨name, dfltF, .OnDemand ((none : Option String), (none : Option T))⟩ (some raw1) =
              (.error (.NotSet vn'), ⟨name, dfltF, .OnDemand (none, none)⟩, 1) := by
            rw [value_on_demand_miss pT name dfltF (none, none) (some raw1) (by simp)]
            simp [resetValue, hp1, hd]
          rw [hfirst]
          exact hmiss2 (none, none) (Or.inl rfl)
      | ParseError a b c d =>
        have hfirst : Envar.value pT ⟨name, dfltF, .OnDemand ((none : Option String), (none : Option T))⟩ (some raw1) =
            (.error (.ParseError a b c d), ⟨name, dfltF, .OnDemand (none, none)⟩, 1) := by
          rw [value_on_demand_miss pT name dfltF (none, none) (some raw1) (by simp)]
          simp [resetValue, hp1]
        rw [hfirst]
        exact hmiss2 (none, none) (Or.inl rfl)
      | NotSet a =>
        have hfirst : Envar.value pT ⟨name, dfltF, .OnDemand ((none : Option String), (none : Option T))⟩ (some raw1) =
            (.error (.NotSet a), ⟨name, dfltF, .OnDemand (none, none)⟩, 1) := by
          rw [value_on_demand_miss pT name dfltF (none, none) (some raw1) (by simp)]
          simp [resetValue, hp1]
        rw [hfirst]
        exact hmiss2 (none, none) (Or.inl rfl)

/-- Witness for C1 (amended): `"on"` parses as `true`; the second of two
reads with raw `"on"` returns the same result with zero parse
invocations, and changing the raw string to `"off"` makes the next read
return the newly parsed `false`. -/
theorem claim_C1_on_demand_cache_amended_witness :
    ((Envar.value parseBoolRule
        (Envar.value parseBoolRule
          ⟨"V", (fun _ => .Unset), .OnDemand (none, none)⟩ (some "on")).2.1 (some "on")).1 =
      (Envar.value parseBoolRule
        ⟨"V", (fun _ => .Unset), .OnDemand (none, none)⟩ (some "on")).1 ∧
      (Envar.value parseBoolRule
        (Envar.value parseBoolRule
          ⟨"V", (fun _ => .Unset), .OnDemand (none, none)⟩ (some "on")).2.1 (some "on")).2.2 = 0) ∧
    (Envar.value parseBoolRule
        (Envar.value parseBoolRule
          ⟨"V", (fun _ => .Unset), .OnDemand (none, none)⟩ (some "on")).2.1 (some "off")).1 =
      .ok false := by
  constructor
  · exact (claim_C1_on_demand_cache_amended parseBoolRule "V" (fun _ => .Unset)).1
      (none, none) "on" true rfl
  · exact (claim_C1_on_demand_cache_amended parseBoolRule "V" (fun _ => .Unset)).2.2
      "on" "off" false (by decide) rfl

/-- Committing the candidate `c` into an empty slot preserves every other
thread's invariant. -/
theorem phaseOk_upgrade {T : Type} (c : T) (env : Option String) (ph : TPhase T)
    (h : phaseOk c env none ph) : phaseOk c env (some c) ph := by
  cases ph with
  | start => trivial
  | checkedAbsent => exact h
  | ready d => exact h
  | readySet d => exact h
  | done r => exact absurd h.2 (by simp)

/-- `sysStep` on an out-of-range thread index is a no-op. -/
theorem sysStep_eq_of_none {T : Type} (pT : String → String → Except EnvarError T)
    (name : String) (dfltF : Unit → EnvarDef T) (env : Option String)
    (s : SysState T) (i : Nat) (hg : s.phases.get? i = none) :
    sysStep pT name dfltF env s i = s := by
  unfold sysStep
  rw [hg]

/-- `sysStep` on a live thread applies `threadStep` to its phase. -/
theorem sysStep_eq_of_some {T : Type} (pT : String → String → Except EnvarError T)
    (name : String) (dfltF : Unit → EnvarDef T) (env : Option String)
    (s : SysState T) (i : Nat) (ph : TPhase T) (hg : s.phases.get? i = some ph) :
    sysStep pT name dfltF env s i =
      ⟨(threadStep pT name dfltF env s.slot ph).1,
        s.phases.set i (threadStep pT name dfltF env s.slot ph).2.1,
        s.commits + (threadStep pT name dfltF env s.slot ph).2.2⟩ := by
  unfold sysStep
  rw [hg]

/-- Updating one thread's phase without touching the slot preserves the
system invariant, provided the new phase satisfies the thread invariant. -/
theorem sysInv_set_nocommit {T : Type} (c : T) (env : Option String)
    (s : SysState T) (i : Nat) (ph' : TPhase T) (hinv : sysInv c env s)
    (hnew : phaseOk c env s.slot ph') :
    sysInv c env ⟨s.slot, s.phases.set i ph', s.commits + 0⟩ := by
  obtain ⟨h1, h2⟩ := hinv
  refine ⟨by simpa using h1, ?_⟩
  intro ph hm
  rcases List.mem_or_eq_of_mem_set hm with hm' | rfl
  · exact h2 ph hm'
  · exact hnew

/-- A commit of the candidate `c` into the empty slot preserves the
system invariant and is the single commit. -/
theorem sysInv_set_commit {T : Type} (c : T) (env : Option String)
    (s : SysState T) (i : Nat) (ph' : TPhase T) (hinv : sysInv c env s)
    (hslot : s.slot = none) (hnew : phaseOk c env (some c) ph') :
    sysInv c env ⟨some c, s.phases.set i ph', s.commits + 1⟩ := by
  obtain ⟨h1, h2⟩ := hinv
  have hcom : s.commits = 0 := by
    rcases h1 with ⟨_, h⟩ | ⟨h, _⟩
    · exact h
    · rw [hslot] at h; exact Option.noConfusion h
  refine ⟨Or.inr ⟨rfl, by simp [hcom]⟩, ?_⟩
  intro ph hm
  rcases List.mem_or_eq_of_mem_set hm with hm' | rfl
  · have hold := h2 ph hm'
    rw [hslot] at hold
    exact phaseOk_upgrade c env ph hold
  · exact hnew

/-- One scheduler step preserves the system invariant of the OnStartup
race whenever the fixed environment resolves to the candidate `c`. -/
theorem sysInv_step {T : Type} (pT : String → String → Except EnvarError T)
    (name : String) (dfltF : Unit → EnvarDef T) (env : Option String) (c : T)
    (hres : startupResolve pT name dfltF env = .ok c)
    (s : SysState T) (hs : sysInv c env s) (i : Nat) :
    sysInv c env (sysStep pT name dfltF env s i) := by
  cases hg : s.phases.get? i with
  | none => rw [sysStep_eq_of_none pT name dfltF env s i hg]; exact hs
  | some ph =>
    rw [sysStep_eq_of_some pT name dfltF env s i ph hg]
    have hpo : phaseOk c env s.slot ph := hs.2 ph (List.get?_mem hg)
    cases ph with
    | start =>
      cases hsl : s.slot with
      | some w =>
        have hw : c = w := by
          rcases hs.1 with ⟨h1, _⟩ | ⟨h1, _⟩
          · rw [hsl] at h1; exact Option.noConfusion h1
          · rw [hsl] at h1; exact (Option.some.inj h1).symm
        subst hw
        have hstep := sysInv_set_nocommit c env s i (.done (.ok c)) hs ⟨rfl, hsl⟩
        simpa [threadStep, hsl] using hstep
      | none =>
        cases env with
        | some raw =>
          cases hp : pT name raw with
          | ok v =>
            have hv : c = v := by
              have h := hres
              simp only [startupResolve, hp] at h
              exact (Except.ok.inj h).symm
            subst hv
            have hstep := sysInv_set_nocommit c (some raw) s i (.ready c) hs rfl
            simpa [threadStep, hsl, hp] using hstep
          | error err =>
            cases err with
            | TryDefault vn' =>
              cases hd : dfltF () with
              | Default d =>
                have hdc : c = d := by
                  have h := hres
                  simp only [startupResolve, hp, hd] at h
                  exact (Except.ok.inj h).symm
                subst hdc
                have hstep := sysInv_set_nocommit c (some raw) s i (.ready c) hs rfl
                simpa [threadStep, hsl, hp, hd] using hstep
              | Unset => simp [startupResolve, hp, hd] at hres
            | ParseError a b v r => simp [startupResolve, hp] at hres
            | NotSet a => simp [startupResolve, hp] at hres
        | none =>
          have hstep := sysInv_set_nocommit c none s i .checkedAbsent hs rfl
          simpa [threadStep, hsl] using hstep
    | checkedAbsent =>
      have henv : env = none := hpo
      subst henv
      cases hsl : s.slot with
      | some w =>
        have hw : c = w := by
          rcases hs.1 with ⟨h1, _⟩ | ⟨h1, _⟩
          · rw [hsl] at h1; exact Option.noConfusion h1
          · rw [hsl] at h1; exact (Option.some.inj h1).symm
        subst hw
        have hstep := sysInv_set_nocommit c none s i (.done (.ok c)) hs ⟨rfl, hsl⟩
        simpa [threadStep, hsl] using hstep
      | none =>
        cases hd : dfltF () with
        | Default d =>
          have hdc : c = d := by
            have h := hres
            simp only [startupResolve, hd] at h
            exact (Except.ok.inj h).symm
          subst hdc
          have hstep := sysInv_set_nocommit c none s i (.readySet c) hs rfl
          simpa [threadStep, hsl, hd] using hstep
        | Unset => simp [startupResolve, hd] at hres
    | ready d =>
      have hdc : c = d := hpo.symm
      subst hdc
      cases hsl : s.slot with
      | some w =>
        have hw : c = w := by
          rcases hs.1 with ⟨h1, _⟩ | ⟨h1, _⟩
          · rw [hsl] at h1; exact Option.noConfusion h1
          · rw [hsl] at h1; exact (Option.some.inj h1).symm
        subst hw
        have hstep := sysInv_set_nocommit c env s i (.done (.ok c)) hs ⟨rfl, hsl⟩
        simpa [threadStep, hsl] using hstep
      | none =>
        have hstep := sysInv_set_commit c env s i (.done (.ok c)) hs hsl ⟨rfl, rfl⟩
        simpa [threadStep, hsl] using hstep
    | readySet d =>
      have hdc : c = d := hpo.symm
      subst hdc
      cases hsl : s.slot with
      | some w =>
        have hw : c = w := by
          rcases hs.1 with ⟨h1, _⟩ | ⟨h1, _⟩
          · rw [hsl] at h1; exact Option.noConfusion h1
          · rw [hsl] at h1; exact (Option.some.inj h1).symm
        subst hw
        have hstep := sysInv_set_nocommit c env s i (.done (.ok c)) hs ⟨rfl, hsl⟩
        simpa [threadStep, hsl] using hstep
      | none =>
        have hstep := sysInv_set_commit c env s i (.done (.ok c)) hs hsl ⟨rfl, rfl⟩
        simpa [threadStep, hsl] using hstep
    | done r =>
      have hstep := sysInv_set_nocommit c env s i (.done r) hs hpo
      simpa [threadStep] using hstep

/-- The system invariant is preserved by any whole schedule. -/
theorem sysInv_run {T : Type} (pT : String → String → Except EnvarError T)
    (name : String) (dfltF : Unit → EnvarDef T) (env : Option String) (c : T)
    (hres : startupResolve pT name dfltF env = .ok c) (sched : List Nat) :
    ∀ s : SysState T, sysInv c env s →
      sysInv c env (sysRun pT name dfltF env sched s) := by
  induction sched with
  | nil => intro s h; exact h
  | cons i sched ih =>
    intro s h
    exact ih _ (sysInv_step pT name dfltF env c hres s h i)

/-- The initial race state satisfies the invariant. -/
theorem sysInv_init {T : Type} (c : T) (env : Option String) (N : Nat) :
    sysInv c env (sysInit N : SysState T) := by
  refine ⟨Or.inl ⟨rfl, rfl⟩, ?_⟩
  intro ph hm
  rw [List.eq_of_mem_replicate hm]
  trivial

/-- C9: when `N` threads concurrently perform first-time reads of the same
OnStartup variable (fixed environment resolving to candidate `c`), under
every interleaving at most one value is ever committed to the write-once
slot (exactly one once any thread has finished), the slot only ever holds
`c`, and every finished thread's `value()` call returned that identical
committed value. -/
theorem claim_C9_startup_race {T : Type} (pT : String → String → Except EnvarError T)
    (name : String) (dfltF : Unit → EnvarDef T) (env : Option String)
    (c : T) (N : Nat) (sched : List Nat)
    (hres : startupResolve pT name dfltF env = .ok c) :
    (sysRun pT name dfltF env sched (sysInit N)).commits ≤ 1 ∧
      (∀ r : Except EnvarError T,
        TPhase.done r ∈ (sysRun pT name dfltF env sched (sysInit N)).phases →
          r = .ok c) ∧
      ((sysRun pT name dfltF env sched (sysInit N)).slot = none ∨
        (sysRun pT name dfltF env sched (sysInit N)).slot = some c) ∧
      ((∃ r : Except EnvarError T,
          TPhase.done r ∈ (sysRun pT name dfltF env sched (sysInit N)).phases) →
        (sysRun pT name dfltF env sched (sysInit N)).commits = 1) := by
  obtain ⟨h1, h2⟩ :=
    sysInv_run pT name dfltF env c hres sched (sysInit N) (sysInv_init c env N)
  refine ⟨?_, ?_, ?_, ?_⟩
  · rcases h1 with ⟨_, h⟩ | ⟨_, h⟩ <;> omega
  · intro r hm
    exact (h2 _ hm).1
  · rcases h1 with ⟨h, _⟩ | ⟨h, _⟩
    · exact Or.inl h
    · exact Or.inr h
  · rintro ⟨r, hm⟩
    have hsl := (h2 _ hm).2
    rcases h1 with ⟨h, _⟩ | ⟨_, hc⟩
    · rw [h] at hsl; exact Option.noConfusion hsl
    · exact hc

/-- Witness for C9: two threads racing on `"yes"` under an interleaved
schedule; at most one commit and the slot is empty or pinned to `true`. -/
theorem claim_C9_startup_race_witness :
    (sysRun parseBoolRule "V" (fun _ => EnvarDef.Unset) (some "yes")
        [0, 1, 0, 1] (sysInit 2)).commits ≤ 1 ∧
      ((sysRun parseBoolRule "V" (fun _ => EnvarDef.Unset) (some "yes")
          [0, 1, 0, 1] (sysInit 2)).slot = none ∨
        (sysRun parseBoolRule "V" (fun _ => EnvarDef.Unset) (some "yes")
          [0, 1, 0, 1] (sysInit 2)).slot = some true) := by
  have h := claim_C9_startup_race parseBoolRule "V" (fun _ => EnvarDef.Unset)
    (some "yes") true 2 [0, 1, 0, 1] rfl
  exact ⟨h.1, h.2.2.1⟩

/-- Witness for C6 at a concrete variable name. -/
theorem claim_C6_list_concrete_witness :
    parseListRule ⟨",", true, true⟩ parseStringRule "W" "a,,b,  ,c" =
        .ok ["a", "b", "c"] ∧
      parseListRule ⟨",", false, false⟩ parseStringRule "W" "a,,b,  ,c" =
        .ok ["a", "", "b", "", "c"] :=
  claim_C6_list_concrete "W"

/-- Witness for C8: three `as_str` calls on a fresh diagnostic yield the
same string three times with a single provider execution and no panic. -/
theorem claim_C8_error_reason_once_witness :
    ErrorReason.asStrCalls 3 (ErrorReason.new (fun _ => "boom")) =
      some (["boom", "boom", "boom"], ⟨none, some "boom"⟩, 1) := by
  simpa using claim_C8_error_reason_once (fun _ => "boom") 3
